import Mathlib

/-!
Verification of the Hammer gesture event plugin
(`packages/platform-browser/src/dom/events/hammer_gestures.ts`).

The development shallowly embeds the plugin:

* `jsToLowerCase` models the JavaScript `String.prototype.toLowerCase`
  host primitive (ASCII case folding, which covers every gesture name).
* `EVENT_NAMES` is the fixed table of recognized gesture names.
* `HammerGestureConfig` carries `events` (custom event names), `overrides`
  (insertion-ordered map from event name to an opaque option bag, modelled
  by a `Nat` identifier) and the opaque base `options` bag.
* `buildHammer` replays `HammerGestureConfig.buildHammer`: it constructs the
  engine instance (failing when the engine constructor is globally absent,
  as `new Hammer(...)` then throws), records the `get(...).set(...)` calls
  that force `pinch`/`rotate` on, and then applies each override in order.
* `supports` returns the boolean verdict together with the list of warning
  messages the call writes to the console.
* `addEventListener` is embedded as a per-call state machine `CallState`:
  the closure variables `cancelRegistration` and `deregister` become record
  fields, calls to the engine `on`/`off` and console warnings are recorded
  as traces, and each wrapped callback created by the bound path receives a
  fresh identifier (`nextCb`) standing for its reference identity.
  External stimuli (invoking the returned deregistration handle, the loader
  settling in each of its three ways) are the events `Ev` of the machine;
  the loader promise settles at most once, enforced by the `settled` flag.
* The wrapped callback built in the bound path is modelled functionally by
  `wrappedCallback`: dispatching an engine event produces the handler
  invocations it causes, tagged with the guarded-zone boundary.
-/

/-- Model of the JavaScript `String.prototype.toLowerCase` host primitive
(ASCII case folding; every recognized gesture name is ASCII). -/
def jsToLowerCase (s : String) : String :=
  ⟨s.data.map Char.toLower⟩

/-- The fixed table of recognized gesture event names (`EVENT_NAMES`). -/
def EVENT_NAMES : List String :=
  ["pan", "panstart", "panmove", "panend", "pancancel",
   "panleft", "panright", "panup", "pandown",
   "pinch", "pinchstart", "pinchmove", "pinchend", "pinchcancel",
   "pinchin", "pinchout",
   "press", "pressup",
   "rotate", "rotatestart", "rotatemove", "rotateend", "rotatecancel",
   "swipe", "swipeleft", "swiperight", "swipeup", "swipedown",
   "tap"]

/-- The `HammerGestureConfig` injectable: custom event names, per-recognizer
override bags (opaque, keyed by event name, in insertion order) and the
opaque base option bag. -/
structure HammerGestureConfig where
  events : List String := []
  overrides : List (String × Nat) := []
  options : Option Nat := none
deriving DecidableEq

/-- An option bag passed to `recognizer.set(...)`: either the literal
`enable: true` bag or one of the opaque override bags. -/
inductive RecognizerOpt where
  | enableTrue
  | overrideBag (bag : Nat)
deriving DecidableEq

/-- A Hammer manager instance: the element and base options it was
constructed from, and the trace of `get(name).set(opt)` calls applied to
its recognizers, in order. -/
structure HammerInstance where
  element : Nat
  options : Option Nat
  applied : List (String × RecognizerOpt)
deriving DecidableEq

/-- `mc.get(name).set(opt)` — records one recognizer-option application. -/
def HammerInstance.getSet (mc : HammerInstance) (name : String)
    (opt : RecognizerOpt) : HammerInstance :=
  { mc with applied := mc.applied ++ [(name, opt)] }

/-- `new Hammer(element, options)`: succeeds when the engine constructor is
globally present; otherwise the global lookup of `Hammer` throws. -/
def hammerNew (hammerPresent : Bool) (element : Nat) (options : Option Nat) :
    Except Unit HammerInstance :=
  if hammerPresent then
    Except.ok { element := element, options := options, applied := [] }
  else
    Except.error ()

/-- `HammerGestureConfig.buildHammer(element)`: construct the manager from
the element and base options, force the `pinch` and `rotate` recognizers to
enabled, then apply each entry of `overrides` in order. -/
def buildHammer (hammerPresent : Bool) (cfg : HammerGestureConfig)
    (element : Nat) : Except Unit HammerInstance :=
  match hammerNew hammerPresent element cfg.options with
  | Except.error e => Except.error e
  | Except.ok mc0 =>
    let mc1 := mc0.getSet "pinch" RecognizerOpt.enableTrue
    let mc2 := mc1.getSet "rotate" RecognizerOpt.enableTrue
    Except.ok (cfg.overrides.foldl
      (fun mc p => mc.getSet p.1 (RecognizerOpt.overrideBag p.2)) mc2)

/-- `HammerGesturesPlugin.isCustomEvent`: membership of the (unfolded) name
in the configured custom event list, via `indexOf(eventName) > -1`. -/
def isCustomEvent (cfg : HammerGestureConfig) (name : String) : Bool :=
  cfg.events.contains name

/-- The warning `supports` emits when a recognized event cannot be bound
because the engine is absent and no loader is configured. -/
def supportsWarning (name : String) : String :=
  "The \"" ++ name ++ "\" event cannot be bound because Hammer.JS is not " ++
  "loaded and no custom loader has been specified."

/-- `HammerGesturesPlugin.supports(eventName)`: the boolean verdict paired
with the list of warnings written to the console by this call. -/
def supports (cfg : HammerGestureConfig) (hammerPresent loaderPresent : Bool)
    (name : String) : Bool × List String :=
  if !(EVENT_NAMES.contains (jsToLowerCase name)) && !(isCustomEvent cfg name) then
    (false, [])
  else if !hammerPresent && !loaderPresent then
    (false, [supportsWarning name])
  else
    (true, [])

/-- The behaviour of the `deregister` closure cell inside one
`addEventListener` call: cancel the pending registration, do nothing, or
remove the bound listener by calling `mc.off(name, callback)`. -/
inductive DeregAction where
  | cancel
  | noop
  | remove (name : String) (cb : Nat)
deriving DecidableEq

/-- The warning emitted when the custom loader resolves but the engine is
still globally absent. -/
def noHammerWarning : String :=
  "The custom HAMMER_LOADER completed, but Hammer.JS is not present."

/-- The warning emitted when the custom loader rejects. -/
def loaderFailedWarning (name : String) : String :=
  "The \"" ++ name ++ "\" event cannot be bound because the custom " ++
  "Hammer.JS loader failed."

/-- The state of one `addEventListener` call: the closure-captured event
name and mutable cells (`cancelRegistration`, `deregister`, whether the
loader promise has settled), the traces of engine `on`/`off` calls and
console warnings caused by this call, the number of engine instances built
for it, and the supply of fresh wrapped-callback identities. -/
structure CallState where
  name : String
  cancelRegistration : Bool
  deregister : DeregAction
  settled : Bool
  builds : Nat
  nextCb : Nat
  onCalls : List (String × Nat)
  offCalls : List (String × Nat)
  warnings : List String
deriving DecidableEq

/-- Invoking the function returned by `addEventListener`: it executes the
current content of the `deregister` cell. -/
def invokeDereg (s : CallState) : CallState :=
  match s.deregister with
  | DeregAction.cancel => { s with cancelRegistration := true }
  | DeregAction.noop => s
  | DeregAction.remove n c => { s with offCalls := s.offCalls ++ [(n, c)] }

/-- The direct (bound) path of `addEventListener` with the engine present:
lower-case the event name, build the engine instance, create the single
wrapped callback, register it with `on`, and leave `deregister` pointing at
`() => mc.off(eventName, callback)`. -/
def bindListener (s : CallState) : CallState :=
  let n := jsToLowerCase s.name
  let cb := s.nextCb
  { s with
    name := n,
    builds := s.builds + 1,
    nextCb := s.nextCb + 1,
    onCalls := s.onCalls ++ [(n, cb)],
    deregister := DeregAction.remove n cb }

/-- The `then` continuation of the loader when the engine is still absent:
warn and turn `deregister` into a permanent no-op. -/
def loaderResolvedNoHammer (s : CallState) : CallState :=
  if s.settled then s
  else
    { s with
      settled := true,
      warnings := s.warnings ++ [noHammerWarning],
      deregister := DeregAction.noop }

/-- The `then` continuation of the loader with the engine now present:
unless the registration was cancelled, re-enter `addEventListener`
(which now takes the bound path) and store the real removal action. -/
def loaderResolvedWithHammer (s : CallState) : CallState :=
  if s.settled then s
  else if s.cancelRegistration then { s with settled := true }
  else bindListener { s with settled := true }

/-- The `catch` continuation of the loader: warn (naming the event) and
turn `deregister` into a permanent no-op. -/
def loaderRejected (s : CallState) : CallState :=
  if s.settled then s
  else
    { s with
      settled := true,
      warnings := s.warnings ++ [loaderFailedWarning s.name],
      deregister := DeregAction.noop }

/-- A fresh call state, before any path has run, for a captured name. -/
def blankCall (name : String) : CallState :=
  { name := name,
    cancelRegistration := false,
    deregister := DeregAction.cancel,
    settled := false,
    builds := 0,
    nextCb := 0,
    onCalls := [],
    offCalls := [],
    warnings := [] }

/-- The state of an `addEventListener` call that entered the pending path
(engine absent, loader configured): the name has been lower-cased, the
cancellation flag is false and `deregister` cancels the registration. -/
def initPending (name : String) : CallState :=
  blankCall (jsToLowerCase name)

/-- The state of an `addEventListener` call that took the direct bound path
(engine present): no loader promise is outstanding. -/
def initBound (name : String) : CallState :=
  bindListener { blankCall name with settled := true }

/-- External stimuli acting on one pending `addEventListener` call: the
caller invokes the returned deregistration handle, or the loader settles
(resolving with the engine present, resolving with it still absent, or
rejecting). -/
inductive Ev where
  | invoke
  | resolveWithHammer
  | resolveNoHammer
  | reject
deriving DecidableEq

/-- One step of the per-call state machine. -/
def step (s : CallState) : Ev → CallState
  | Ev.invoke => invokeDereg s
  | Ev.resolveWithHammer => loaderResolvedWithHammer s
  | Ev.resolveNoHammer => loaderResolvedNoHammer s
  | Ev.reject => loaderRejected s

/-- Run the per-call state machine over a sequence of stimuli. -/
def run (s : CallState) : List Ev → CallState
  | [] => s
  | e :: es => run (step s e) es

/-- What a call to `HammerGesturesPlugin.addEventListener` returns
synchronously: a pending registration or a directly bound one. -/
inductive RegistrationInit where
  | pending (s : CallState)
  | bound (s : CallState)
deriving DecidableEq

/-- `HammerGesturesPlugin.addEventListener(element, eventName, handler)`:
with the engine absent and a loader configured it enters the pending path;
otherwise it takes the direct path, which builds the engine instance (and
therefore throws when the engine constructor is absent). -/
def addEventListener (cfg : HammerGestureConfig)
    (hammerPresent loaderPresent : Bool) (element : Nat) (name : String) :
    Except Unit RegistrationInit :=
  if !hammerPresent && loaderPresent then
    Except.ok (RegistrationInit.pending (initPending name))
  else
    match buildHammer hammerPresent cfg element with
    | Except.error e => Except.error e
    | Except.ok _ => Except.ok (RegistrationInit.bound (initBound name))

/-- One invocation of the caller's handler: which handler ran, the event
object it received, and whether it ran inside the guarded zone boundary. -/
structure HandlerCall (α : Type) where
  handler : Nat
  event : α
  guarded : Bool
deriving DecidableEq

/-- `zone.runGuarded(...)`: the body's handler invocations happen inside
the error-isolated boundary. -/
def zoneRunGuarded {α : Type} (calls : List (HandlerCall α)) :
    List (HandlerCall α) :=
  calls.map (fun c => { c with guarded := true })

/-- Calling the raw handler on an event object: one invocation, not yet
inside any guarded boundary. -/
def invokeHandler {α : Type} (h : Nat) (e : α) : List (HandlerCall α) :=
  [{ handler := h, event := e, guarded := false }]

/-- The wrapped callback registered with the engine:
`function(eventObj) \x7b zone.runGuarded(function() \x7b handler(eventObj); \x7d); \x7d`. -/
def wrappedCallback {α : Type} (h : Nat) (e : α) : List (HandlerCall α) :=
  zoneRunGuarded (invokeHandler h e)

/-- The handler invocations caused by a sequence of engine-emitted events
delivered to the wrapped callback. -/
def dispatchEvents {α : Type} (h : Nat) (events : List α) :
    List (HandlerCall α) :=
  events.flatMap (wrappedCallback h)

/-- A call state in which the registration was cancelled before any
binding: the flag is set, `deregister` never removes, and no engine call
was ever made. -/
def CancelledNoBind (s : CallState) : Prop :=
  s.cancelRegistration = true
  ∧ (s.deregister = DeregAction.cancel ∨ s.deregister = DeregAction.noop)
  ∧ s.onCalls = [] ∧ s.offCalls = [] ∧ s.builds = 0 ∧ s.nextCb = 0

/-- A call state that is a permanent no-op after the loader failed it:
`deregister` does nothing, the promise has settled, no engine call was ever
made and the warning trace is frozen at `w`. -/
def PermanentNoop (s : CallState) (w : List String) : Prop :=
  s.deregister = DeregAction.noop ∧ s.settled = true
  ∧ s.onCalls = [] ∧ s.offCalls = [] ∧ s.builds = 0 ∧ s.nextCb = 0
  ∧ s.warnings = w

/-- The binding invariant of one call: while `deregister` is the removal
action for `(n, c)`, exactly one wrapped callback was created, the engine's
`on` was called exactly once and exactly with `(n, c)`, and the loader can
no longer fire; while `deregister` does not remove, no callback was created
and `on` was never called. -/
def BoundOnce (s : CallState) : Prop :=
  (∀ n c, s.deregister = DeregAction.remove n c →
    s.onCalls = [(n, c)] ∧ s.nextCb = 1 ∧ s.builds = 1 ∧ s.settled = true)
  ∧ ((s.deregister = DeregAction.cancel ∨ s.deregister = DeregAction.noop) →
    s.onCalls = [] ∧ s.nextCb = 0 ∧ s.builds = 0)

/-- Every engine-facing name of the call state equals `l`: the captured
name, the names passed to `on` and `off`, and the name held by a pending
removal action. -/
def NamesAre (s : CallState) (l : String) : Prop :=
  s.name = l
  ∧ (∀ p ∈ s.onCalls, Prod.fst p = l)
  ∧ (∀ p ∈ s.offCalls, Prod.fst p = l)
  ∧ (∀ n c, s.deregister = DeregAction.remove n c → n = l)

/-! ## Helper lemmas -/

theorem char_toNat_ofNat_valid (m : Nat) (h : m.isValidChar) :
    (Char.ofNat m).toNat = m := by
  rw [Char.ofNat, dif_pos h]
  rfl

theorem char_toLower_idem (c : Char) : c.toLower.toLower = c.toLower := by
  simp only [Char.toLower]
  by_cases h : c.toNat ≥ 65 ∧ c.toNat ≤ 90
  · rw [if_pos h]
    have hv : (c.toNat + 32).isValidChar := Or.inl (by omega)
    rw [char_toNat_ofNat_valid _ hv, if_neg (by omega)]
  · rw [if_neg h, if_neg h]

theorem map_toLower_idem (l : List Char) :
    (l.map Char.toLower).map Char.toLower = l.map Char.toLower := by
  induction l with
  | nil => rfl
  | cons c cs ih => simp only [List.map_cons, char_toLower_idem, ih]

theorem jsToLowerCase_idem (s : String) :
    jsToLowerCase (jsToLowerCase s) = jsToLowerCase s :=
  congrArg String.mk (map_toLower_idem s.data)

theorem run_append (s : CallState) (l1 l2 : List Ev) :
    run s (l1 ++ l2) = run (run s l1) l2 := by
  induction l1 generalizing s with
  | nil => rfl
  | cons e es ih => exact ih (step s e)

theorem run_invokes (s : CallState) (l : List Ev)
    (hs : s.deregister = DeregAction.cancel) (h : ∀ e ∈ l, e = Ev.invoke) :
    run s l = s ∨ run s l = { s with cancelRegistration := true } := by
  induction l generalizing s with
  | nil => exact Or.inl rfl
  | cons e es ih =>
    have he : e = Ev.invoke := h e (List.mem_cons_self e es)
    subst he
    have hstep : step s Ev.invoke = { s with cancelRegistration := true } := by
      simp only [step, invokeDereg, hs]
    rw [run, hstep]
    rcases ih { s with cancelRegistration := true } hs
        (fun e he => h e (List.mem_cons_of_mem _ he)) with h1 | h1
    · exact Or.inr h1
    · exact Or.inr h1

theorem cancelledNoBind_step (s : CallState) (e : Ev)
    (h : CancelledNoBind s) : CancelledNoBind (step s e) := by
  obtain ⟨hf, hd, hon, hoff, hb, hcb⟩ := h
  cases e with
  | invoke =>
    rcases hd with hd | hd
    · simp only [step, invokeDereg, hd]
      exact ⟨rfl, Or.inl rfl, hon, hoff, hb, hcb⟩
    · simp only [step, invokeDereg, hd]
      exact ⟨hf, Or.inr hd, hon, hoff, hb, hcb⟩
  | resolveWithHammer =>
    by_cases hsett : s.settled = true
    · simp only [step, loaderResolvedWithHammer, if_pos hsett]
      exact ⟨hf, hd, hon, hoff, hb, hcb⟩
    · simp only [step, loaderResolvedWithHammer, if_neg hsett, if_pos hf]
      exact ⟨hf, hd, hon, hoff, hb, hcb⟩
  | resolveNoHammer =>
    by_cases hsett : s.settled = true
    · simp only [step, loaderResolvedNoHammer, if_pos hsett]
      exact ⟨hf, hd, hon, hoff, hb, hcb⟩
    · simp only [step, loaderResolvedNoHammer, if_neg hsett]
      exact ⟨hf, Or.inr rfl, hon, hoff, hb, hcb⟩
  | reject =>
    by_cases hsett : s.settled = true
    · simp only [step, loaderRejected, if_pos hsett]
      exact ⟨hf, hd, hon, hoff, hb, hcb⟩
    · simp only [step, loaderRejected, if_neg hsett]
      exact ⟨hf, Or.inr rfl, hon, hoff, hb, hcb⟩

theorem cancelledNoBind_run (s : CallState) (l : List Ev)
    (h : CancelledNoBind s) : CancelledNoBind (run s l) := by
  induction l generalizing s with
  | nil => exact h
  | cons e es ih => exact ih (step s e) (cancelledNoBind_step s e h)

theorem permanentNoop_step (s : CallState) (e : Ev) (w : List String)
    (h : PermanentNoop s w) : PermanentNoop (step s e) w := by
  obtain ⟨hd, hsett, hon, hoff, hb, hcb, hw⟩ := h
  cases e with
  | invoke =>
    simp only [step, invokeDereg, hd]
    exact ⟨hd, hsett, hon, hoff, hb, hcb, hw⟩
  | resolveWithHammer =>
    simp only [step, loaderResolvedWithHammer, if_pos hsett]
    exact ⟨hd, hsett, hon, hoff, hb, hcb, hw⟩
  | resolveNoHammer =>
    simp only [step, loaderResolvedNoHammer, if_pos hsett]
    exact ⟨hd, hsett, hon, hoff, hb, hcb, hw⟩
  | reject =>
    simp only [step, loaderRejected, if_pos hsett]
    exact ⟨hd, hsett, hon, hoff, hb, hcb, hw⟩

theorem permanentNoop_run (s : CallState) (l : List Ev) (w : List String)
    (h : PermanentNoop s w) : PermanentNoop (run s l) w := by
  induction l generalizing s with
  | nil => exact h
  | cons e es ih => exact ih (step s e) (permanentNoop_step s e w h)

theorem boundOnce_bindListener (s : CallState)
    (hon : s.onCalls = []) (hcb : s.nextCb = 0) (hb : s.builds = 0) :
    BoundOnce (bindListener { s with settled := true }) := by
  constructor
  · intro n c hnc
    have hx : DeregAction.remove (jsToLowerCase s.name) s.nextCb
        = DeregAction.remove n c := hnc
    rw [DeregAction.remove.injEq] at hx
    obtain ⟨hn, hc⟩ := hx
    refine ⟨?_, ?_, ?_, rfl⟩
    · show s.onCalls ++ [(jsToLowerCase s.name, s.nextCb)] = [(n, c)]
      rw [hon, hn, hc]
      rfl
    · show s.nextCb + 1 = 1
      rw [hcb]
    · show s.builds + 1 = 1
      rw [hb]
  · intro hd
    rcases hd with hd | hd
    · exact absurd (show DeregAction.remove (jsToLowerCase s.name) s.nextCb
        = DeregAction.cancel from hd) (by simp)
    · exact absurd (show DeregAction.remove (jsToLowerCase s.name) s.nextCb
        = DeregAction.noop from hd) (by simp)

theorem boundOnce_step (s : CallState) (e : Ev)
    (h : BoundOnce s) : BoundOnce (step s e) := by
  obtain ⟨h1, h2⟩ := h
  cases e with
  | invoke =>
    cases hd : s.deregister with
    | cancel =>
      simp only [step, invokeDereg, hd]
      exact ⟨fun n c hnc => absurd hnc (by simp), fun _ => h2 (Or.inl hd)⟩
    | noop =>
      simp only [step, invokeDereg, hd]
      exact ⟨h1, h2⟩
    | remove n0 c0 =>
      simp only [step, invokeDereg, hd]
      constructor
      · intro n c hnc
        have hx : DeregAction.remove n0 c0 = DeregAction.remove n c := hnc
        exact h1 n c (hd.trans hx)
      · intro hx
        rcases hx with hx | hx
        · exact absurd (show DeregAction.remove n0 c0 = DeregAction.cancel from hx)
            (by simp)
        · exact absurd (show DeregAction.remove n0 c0 = DeregAction.noop from hx)
            (by simp)
  | resolveWithHammer =>
    by_cases hsett : s.settled = true
    · simp only [step, loaderResolvedWithHammer, if_pos hsett]
      exact ⟨h1, h2⟩
    · by_cases hflag : s.cancelRegistration = true
      · simp only [step, loaderResolvedWithHammer, if_neg hsett, if_pos hflag]
        exact ⟨fun n c hnc =>
          ⟨(h1 n c hnc).1, (h1 n c hnc).2.1, (h1 n c hnc).2.2.1, rfl⟩, h2⟩
      · simp only [step, loaderResolvedWithHammer, if_neg hsett, if_neg hflag]
        have hnr : s.deregister = DeregAction.cancel ∨ s.deregister = DeregAction.noop := by
          cases hdd : s.deregister with
          | cancel => exact Or.inl rfl
          | noop => exact Or.inr rfl
          | remove n c => exact absurd ((h1 n c hdd).2.2.2) hsett
        obtain ⟨hon, hcb, hb⟩ := h2 hnr
        exact boundOnce_bindListener s hon hcb hb
  | resolveNoHammer =>
    by_cases hsett : s.settled = true
    · simp only [step, loaderResolvedNoHammer, if_pos hsett]
      exact ⟨h1, h2⟩
    · simp only [step, loaderResolvedNoHammer, if_neg hsett]
      have hnr : s.deregister = DeregAction.cancel ∨ s.deregister = DeregAction.noop := by
        cases hdd : s.deregister with
        | cancel => exact Or.inl rfl
        | noop => exact Or.inr rfl
        | remove n c => exact absurd ((h1 n c hdd).2.2.2) hsett
      obtain ⟨hon, hcb, hb⟩ := h2 hnr
      exact ⟨fun n c hnc => absurd hnc (by simp), fun _ => ⟨hon, hcb, hb⟩⟩
  | reject =>
    by_cases hsett : s.settled = true
    · simp only [step, loaderRejected, if_pos hsett]
      exact ⟨h1, h2⟩
    · simp only [step, loaderRejected, if_neg hsett]
      have hnr : s.deregister = DeregAction.cancel ∨ s.deregister = DeregAction.noop := by
        cases hdd : s.deregister with
        | cancel => exact Or.inl rfl
        | noop => exact Or.inr rfl
        | remove n c => exact absurd ((h1 n c hdd).2.2.2) hsett
      obtain ⟨hon, hcb, hb⟩ := h2 hnr
      exact ⟨fun n c hnc => absurd hnc (by simp), fun _ => ⟨hon, hcb, hb⟩⟩

theorem boundOnce_run (s : CallState) (l : List Ev)
    (h : BoundOnce s) : BoundOnce (run s l) := by
  induction l generalizing s with
  | nil => exact h
  | cons e es ih => exact ih (step s e) (boundOnce_step s e h)

theorem boundOnce_initPending (name : String) :
    BoundOnce (initPending name) := by
  constructor
  · intro n c hnc
    exact absurd hnc (by simp [initPending, blankCall])
  · intro _
    exact ⟨rfl, rfl, rfl⟩

theorem boundOnce_initBound (name : String) :
    BoundOnce (initBound name) :=
  boundOnce_bindListener (blankCall name) rfl rfl rfl

theorem namesAre_bindListener (s : CallState) (l : String)
    (hln : jsToLowerCase s.name = l)
    (hon : ∀ p ∈ s.onCalls, Prod.fst p = l)
    (hoff : ∀ p ∈ s.offCalls, Prod.fst p = l) :
    NamesAre (bindListener { s with settled := true }) l := by
  refine ⟨hln, ?_, hoff, ?_⟩
  · intro p hp
    have hp2 : p ∈ s.onCalls ++ [(jsToLowerCase s.name, s.nextCb)] := hp
    rcases List.mem_append.mp hp2 with hp3 | hp3
    · exact hon p hp3
    · rw [List.mem_singleton.mp hp3, hln]
  · intro n c hnc
    have hx : DeregAction.remove (jsToLowerCase s.name) s.nextCb
        = DeregAction.remove n c := hnc
    rw [DeregAction.remove.injEq] at hx
    rw [← hx.1, hln]

theorem namesAre_step (s : CallState) (e : Ev) (l : String)
    (hl : jsToLowerCase l = l) (h : NamesAre s l) : NamesAre (step s e) l := by
  obtain ⟨hname, hon, hoff, hrem⟩ := h
  cases e with
  | invoke =>
    cases hd : s.deregister with
    | cancel =>
      simp only [step, invokeDereg, hd]
      exact ⟨hname, hon, hoff, fun n c hnc => absurd hnc (by simp)⟩
    | noop =>
      simp only [step, invokeDereg, hd]
      exact ⟨hname, hon, hoff, hrem⟩
    | remove n0 c0 =>
      simp only [step, invokeDereg, hd]
      refine ⟨hname, hon, ?_, ?_⟩
      · intro p hp
        have hp2 : p ∈ s.offCalls ++ [(n0, c0)] := hp
        rcases List.mem_append.mp hp2 with hp3 | hp3
        · exact hoff p hp3
        · rw [List.mem_singleton.mp hp3]
          exact hrem n0 c0 hd
      · intro n c hnc
        have hx : DeregAction.remove n0 c0 = DeregAction.remove n c := hnc
        exact hrem n c (hd.trans hx)
  | resolveWithHammer =>
    by_cases hsett : s.settled = true
    · simp only [step, loaderResolvedWithHammer, if_pos hsett]
      exact ⟨hname, hon, hoff, hrem⟩
    · by_cases hflag : s.cancelRegistration = true
      · simp only [step, loaderResolvedWithHammer, if_neg hsett, if_pos hflag]
        exact ⟨hname, hon, hoff, hrem⟩
      · simp only [step, loaderResolvedWithHammer, if_neg hsett, if_neg hflag]
        exact namesAre_bindListener s l (by rw [hname, hl]) hon hoff
  | resolveNoHammer =>
    by_cases hsett : s.settled = true
    · simp only [step, loaderResolvedNoHammer, if_pos hsett]
      exact ⟨hname, hon, hoff, hrem⟩
    · simp only [step, loaderResolvedNoHammer, if_neg hsett]
      exact ⟨hname, hon, hoff, fun n c hnc => absurd hnc (by simp)⟩
  | reject =>
    by_cases hsett : s.settled = true
    · simp only [step, loaderRejected, if_pos hsett]
      exact ⟨hname, hon, hoff, hrem⟩
    · simp only [step, loaderRejected, if_neg hsett]
      exact ⟨hname, hon, hoff, fun n c hnc => absurd hnc (by simp)⟩

theorem namesAre_run (s : CallState) (evs : List Ev) (l : String)
    (hl : jsToLowerCase l = l) (h : NamesAre s l) : NamesAre (run s evs) l := by
  induction evs generalizing s with
  | nil => exact h
  | cons e es ih => exact ih (step s e) (namesAre_step s e l hl h)

theorem namesAre_initPending (name : String) :
    NamesAre (initPending name) (jsToLowerCase name) := by
  refine ⟨rfl, ?_, ?_, ?_⟩
  · intro p hp
    exact absurd hp (List.not_mem_nil p)
  · intro p hp
    exact absurd hp (List.not_mem_nil p)
  · intro n c hnc
    exact absurd hnc (by simp [initPending, blankCall])

theorem namesAre_initBound (name : String) :
    NamesAre (initBound name) (jsToLowerCase name) :=
  namesAre_bindListener (blankCall name) (jsToLowerCase name) rfl
    (fun p hp => absurd hp (List.not_mem_nil p))
    (fun p hp => absurd hp (List.not_mem_nil p))

theorem foldl_getSet (l : List (String × Nat)) (mc : HammerInstance) :
    l.foldl (fun m p => m.getSet p.1 (RecognizerOpt.overrideBag p.2)) mc
      = { mc with applied :=
            mc.applied ++ l.map (fun p => (p.1, RecognizerOpt.overrideBag p.2)) } := by
  induction l generalizing mc with
  | nil => simp
  | cons p ps ih =>
    rw [List.foldl_cons, ih]
    simp [HammerInstance.getSet, List.append_assoc]

/-! ## Claim theorems -/

/-- Claim C1: For every call to `addEventListener` that enters the pending
state (engine absent, loader configured), if the returned deregistration
handle is invoked before the loader settles, the engine's `on` is never
invoked for that call, `off` is consequently never invoked either, and no
engine instance is ever built — regardless of how the loader later
settles. -/
theorem C1_cancel_before_settle_never_binds (name : String) (pre post : List Ev)
    (hpre : ∀ e ∈ pre, e = Ev.invoke) :
    (run (initPending name) (pre ++ Ev.invoke :: post)).onCalls = []
    ∧ (run (initPending name) (pre ++ Ev.invoke :: post)).offCalls = []
    ∧ (run (initPending name) (pre ++ Ev.invoke :: post)).builds = 0 := by
  rw [run_append]
  have key : ∀ s0 : CallState, CancelledNoBind (step s0 Ev.invoke) →
      (run s0 (Ev.invoke :: post)).onCalls = []
      ∧ (run s0 (Ev.invoke :: post)).offCalls = []
      ∧ (run s0 (Ev.invoke :: post)).builds = 0 := by
    intro s0 h
    have h2 := cancelledNoBind_run (step s0 Ev.invoke) post h
    exact ⟨h2.2.2.1, h2.2.2.2.1, h2.2.2.2.2.1⟩
  rcases run_invokes (initPending name) pre rfl hpre with h0 | h0 <;> rw [h0]
  · exact key (initPending name) ⟨rfl, Or.inl rfl, rfl, rfl, rfl, rfl⟩
  · exact key { initPending name with cancelRegistration := true }
      ⟨rfl, Or.inl rfl, rfl, rfl, rfl, rfl⟩

/-- Witness for C1 at a concrete trace: cancel right away, then the loader
resolves with the engine present and the handle is invoked again. -/
theorem C1_witness :
    (∀ e ∈ [Ev.invoke], e = Ev.invoke)
    ∧ ((run (initPending "swipeleft")
          ([Ev.invoke] ++ Ev.invoke :: [Ev.resolveWithHammer, Ev.invoke])).onCalls = []
       ∧ (run (initPending "swipeleft")
          ([Ev.invoke] ++ Ev.invoke :: [Ev.resolveWithHammer, Ev.invoke])).offCalls = []
       ∧ (run (initPending "swipeleft")
          ([Ev.invoke] ++ Ev.invoke :: [Ev.resolveWithHammer, Ev.invoke])).builds = 0) :=
  ⟨by decide, C1_cancel_before_settle_never_binds "swipeleft" [Ev.invoke]
      [Ev.resolveWithHammer, Ev.invoke] (by decide)⟩

/-- Counterexample to claim C2: after a call reaches the bound state, the
second invocation of the deregistration handle is not a no-op inside the
plugin — it changes the call state by issuing a second engine `off` call
for the same listener, so the plugin forwards double removal to the engine
instead of guarding against it. -/
theorem C2_counterexample :
    (run (initPending "tap") [Ev.resolveWithHammer, Ev.invoke, Ev.invoke]).offCalls
      = [("tap", 0), ("tap", 0)]
    ∧ run (initPending "tap") [Ev.resolveWithHammer, Ev.invoke, Ev.invoke]
        ≠ run (initPending "tap") [Ev.resolveWithHammer, Ev.invoke] := by
  constructor
  · decide
  · decide

/-- Claim C2 as amended: invoking the returned deregistration function more
than once never raises an error; while `deregister` is the cancel or no-op
action (pending, cancelled, failed states) repeated invocations are no-ops,
but while it is the removal action (bound state) every invocation —
including the second and later ones — calls the engine's `off` again with
the same wrapped callback and event name, relying on the engine's `off`
tolerating redundant removal rather than guarding inside the plugin. -/
theorem C2_amended_repeat_invocations (s : CallState) :
    ((s.deregister = DeregAction.cancel ∨ s.deregister = DeregAction.noop) →
      invokeDereg (invokeDereg s) = invokeDereg s)
    ∧ (∀ n c, s.deregister = DeregAction.remove n c →
        (invokeDereg s).offCalls = s.offCalls ++ [(n, c)]
        ∧ (invokeDereg (invokeDereg s)).offCalls = s.offCalls ++ [(n, c), (n, c)]) := by
  constructor
  · intro hd
    rcases hd with hd | hd
    · simp only [invokeDereg, hd]
    · simp only [invokeDereg, hd]
  · intro n c hd
    constructor
    · simp only [invokeDereg, hd]
    · simp only [invokeDereg, hd]
      simp [List.append_assoc]

/-- Witness for the amended C2 at concrete states: a pending registration
(no-op on repeat) and a directly bound one (repeat calls `off` again). -/
theorem C2_witness :
    invokeDereg (invokeDereg (initPending "tap")) = invokeDereg (initPending "tap")
    ∧ (invokeDereg (initBound "tap")).offCalls
        = (initBound "tap").offCalls ++ [("tap", 0)]
    ∧ (invokeDereg (invokeDereg (initBound "tap"))).offCalls
        = (initBound "tap").offCalls ++ [("tap", 0), ("tap", 0)] :=
  ⟨(C2_amended_repeat_invocations (initPending "tap")).1 (Or.inl (by decide)),
   ((C2_amended_repeat_invocations (initBound "tap")).2 "tap" 0 (by decide)).1,
   ((C2_amended_repeat_invocations (initBound "tap")).2 "tap" 0 (by decide)).2⟩

/-- Counterexample to claim C3: with the engine globally absent and no
loader configured, `addEventListener` does not return normally with a
no-op listener — it takes the direct binding path and engine construction
throws, because the global engine constructor is absent. -/
theorem C3_counterexample :
    addEventListener {} false false 0 "pinch" = Except.error () := rfl

/-- Claim C3 as amended: if `addEventListener` is called when the engine is
globally absent and no loader is configured, the call takes the direct
binding path and propagates the engine-construction failure (the engine
constructor is absent, so `new Hammer(...)` throws); it does not return a
no-op listener. -/
theorem C3_amended_throws (cfg : HammerGestureConfig) (element : Nat)
    (name : String) :
    addEventListener cfg false false element name = Except.error () := rfl

theorem invokeDereg_noop (s : CallState) (h : s.deregister = DeregAction.noop) :
    invokeDereg s = s := by
  simp only [invokeDereg, h]

/-- Claim C4: `supports` recognizes a name iff its lowercase form is in the
fixed `EVENT_NAMES` table or the name itself is in the configured custom
event list; the fixed-table test depends only on the case-folded name, and
a name recognized neither way always yields false. -/
theorem C4_supports_recognition (cfg : HammerGestureConfig) (hp lp : Bool)
    (name other : String) :
    ((supports cfg hp lp name).fst = true →
      (EVENT_NAMES.contains (jsToLowerCase name) || isCustomEvent cfg name) = true)
    ∧ ((supports cfg true lp name).fst
        = (EVENT_NAMES.contains (jsToLowerCase name) || isCustomEvent cfg name))
    ∧ (jsToLowerCase other = jsToLowerCase name →
      EVENT_NAMES.contains (jsToLowerCase other)
        = EVENT_NAMES.contains (jsToLowerCase name))
    ∧ ((EVENT_NAMES.contains (jsToLowerCase name) = false
        ∧ isCustomEvent cfg name = false) →
      (supports cfg hp lp name).fst = false) := by
  refine ⟨?_, ?_, ?_, ?_⟩
  · intro h
    cases hE : EVENT_NAMES.contains (jsToLowerCase name) with
    | false =>
      cases hC : isCustomEvent cfg name with
      | false =>
        unfold supports at h
        rw [hE, hC] at h
        simp at h
      | true => rfl
    | true => rw [Bool.true_or]
  · cases hE : EVENT_NAMES.contains (jsToLowerCase name) with
    | false =>
      cases hC : isCustomEvent cfg name with
      | false =>
        unfold supports
        rw [hE, hC]
        simp
      | true =>
        unfold supports
        rw [hE, hC]
        simp
    | true =>
      unfold supports
      rw [hE]
      simp
  · intro h
    rw [h]
  · rintro ⟨h1, h2⟩
    unfold supports
    rw [h1, h2]
    simp

/-- Witness for C4 at concrete inputs: a mixed-case fixed name is
recognized, and an unknown name is rejected. -/
theorem C4_witness :
    ((supports {} true false "SwipeLeft").fst
      = (EVENT_NAMES.contains (jsToLowerCase "SwipeLeft")
          || isCustomEvent {} "SwipeLeft"))
    ∧ (supports {} false true "unknown").fst = false :=
  ⟨(C4_supports_recognition {} true false "SwipeLeft" "SWIPELEFT").2.1,
   (C4_supports_recognition {} false true "unknown" "unknown").2.2.2 (by decide)⟩

/-- Claim C5: with the engine unavailable and no loader configured, each
`supports` call on a recognized name returns false and emits exactly one
warning naming that event; an unrecognized name yields false with no
warning in any availability state. -/
theorem C5_unavailable_warns_once (cfg : HammerGestureConfig) (name : String) :
    ((EVENT_NAMES.contains (jsToLowerCase name) || isCustomEvent cfg name) = true →
      supports cfg false false name = (false, [supportsWarning name]))
    ∧ (∀ hp lp : Bool,
      (EVENT_NAMES.contains (jsToLowerCase name) || isCustomEvent cfg name) = false →
      supports cfg hp lp name = (false, [])) := by
  constructor
  · intro h
    cases hE : EVENT_NAMES.contains (jsToLowerCase name) with
    | false =>
      cases hC : isCustomEvent cfg name with
      | false =>
        rw [hE, hC] at h
        simp at h
      | true =>
        unfold supports
        rw [hE, hC]
        simp
    | true =>
      unfold supports
      rw [hE]
      simp
  · intro hp lp h
    cases hE : EVENT_NAMES.contains (jsToLowerCase name) with
    | false =>
      cases hC : isCustomEvent cfg name with
      | false =>
        unfold supports
        rw [hE, hC]
        simp
      | true =>
        rw [hE, hC] at h
        simp at h
    | true =>
      rw [hE] at h
      simp at h

/-- Witness for C5 at concrete inputs: `pinch` warns and fails when the
engine is absent with no loader; an unknown name fails silently. -/
theorem C5_witness :
    supports {} false false "pinch" = (false, [supportsWarning "pinch"])
    ∧ supports {} false false "unknown" = (false, []) :=
  ⟨(C5_unavailable_warns_once {} "pinch").1 (by decide),
   (C5_unavailable_warns_once {} "unknown").2 false false (by decide)⟩

/-- Claim C6: for every element, `buildHammer` constructs the engine
instance from the element and the base options, then sets the `pinch` and
`rotate` recognizers to enabled regardless of the base options, and then
applies each override bag to its recognizer, in the order of the overrides
mapping. -/
theorem C6_buildHammer_trace (cfg : HammerGestureConfig) (element : Nat) :
    buildHammer true cfg element
      = Except.ok
          { element := element,
            options := cfg.options,
            applied := ("pinch", RecognizerOpt.enableTrue)
                :: ("rotate", RecognizerOpt.enableTrue)
                :: cfg.overrides.map (fun p => (p.1, RecognizerOpt.overrideBag p.2)) } := by
  show Except.ok
      (cfg.overrides.foldl
        (fun mc p => mc.getSet p.1 (RecognizerOpt.overrideBag p.2))
        ((({ element := element, options := cfg.options,
             applied := [] } : HammerInstance).getSet
          "pinch" RecognizerOpt.enableTrue).getSet
          "rotate" RecognizerOpt.enableTrue)) = _
  rw [foldl_getSet]
  simp [HammerInstance.getSet]

/-- Claim C7: if the loader of a pending registration rejects, or resolves
while the engine is still absent, then exactly one warning is logged for
that call, no engine `on`/`off` call and no engine construction ever
happens for it, and invoking the deregistration handle afterwards is a
no-op that never errors, whatever happens later. -/
theorem C7_loader_failure_permanent_noop (name : String) (pre post : List Ev)
    (hpre : ∀ e ∈ pre, e = Ev.invoke) :
    ((run (initPending name) (pre ++ Ev.reject :: post)).onCalls = []
     ∧ (run (initPending name) (pre ++ Ev.reject :: post)).offCalls = []
     ∧ (run (initPending name) (pre ++ Ev.reject :: post)).builds = 0
     ∧ (run (initPending name) (pre ++ Ev.reject :: post)).warnings
         = [loaderFailedWarning (jsToLowerCase name)]
     ∧ invokeDereg (run (initPending name) (pre ++ Ev.reject :: post))
         = run (initPending name) (pre ++ Ev.reject :: post))
    ∧ ((run (initPending name) (pre ++ Ev.resolveNoHammer :: post)).onCalls = []
     ∧ (run (initPending name) (pre ++ Ev.resolveNoHammer :: post)).offCalls = []
     ∧ (run (initPending name) (pre ++ Ev.resolveNoHammer :: post)).builds = 0
     ∧ (run (initPending name) (pre ++ Ev.resolveNoHammer :: post)).warnings
         = [noHammerWarning]
     ∧ invokeDereg (run (initPending name) (pre ++ Ev.resolveNoHammer :: post))
         = run (initPending name) (pre ++ Ev.resolveNoHammer :: post)) := by
  constructor
  · rw [run_append]
    rcases run_invokes (initPending name) pre rfl hpre with h0 | h0 <;> rw [h0]
    · have hp := permanentNoop_run (step (initPending name) Ev.reject) post
        [loaderFailedWarning (jsToLowerCase name)] ⟨rfl, rfl, rfl, rfl, rfl, rfl, rfl⟩
      exact ⟨hp.2.2.1, hp.2.2.2.1, hp.2.2.2.2.1, hp.2.2.2.2.2.2,
        invokeDereg_noop _ hp.1⟩
    · have hp := permanentNoop_run
        (step { initPending name with cancelRegistration := true } Ev.reject) post
        [loaderFailedWarning (jsToLowerCase name)] ⟨rfl, rfl, rfl, rfl, rfl, rfl, rfl⟩
      exact ⟨hp.2.2.1, hp.2.2.2.1, hp.2.2.2.2.1, hp.2.2.2.2.2.2,
        invokeDereg_noop _ hp.1⟩
  · rw [run_append]
    rcases run_invokes (initPending name) pre rfl hpre with h0 | h0 <;> rw [h0]
    · have hp := permanentNoop_run (step (initPending name) Ev.resolveNoHammer) post
        [noHammerWarning] ⟨rfl, rfl, rfl, rfl, rfl, rfl, rfl⟩
      exact ⟨hp.2.2.1, hp.2.2.2.1, hp.2.2.2.2.1, hp.2.2.2.2.2.2,
        invokeDereg_noop _ hp.1⟩
    · have hp := permanentNoop_run
        (step { initPending name with cancelRegistration := true } Ev.resolveNoHammer)
        post [noHammerWarning] ⟨rfl, rfl, rfl, rfl, rfl, rfl, rfl⟩
      exact ⟨hp.2.2.1, hp.2.2.2.1, hp.2.2.2.2.1, hp.2.2.2.2.2.2,
        invokeDereg_noop _ hp.1⟩

/-- Witness for C7 at a concrete trace: the loader fails for `swipe` and
the handle is invoked afterwards. -/
theorem C7_witness :
    ((run (initPending "swipe") ([] ++ Ev.reject :: [Ev.invoke])).onCalls = []
     ∧ (run (initPending "swipe") ([] ++ Ev.reject :: [Ev.invoke])).offCalls = []
     ∧ (run (initPending "swipe") ([] ++ Ev.reject :: [Ev.invoke])).builds = 0
     ∧ (run (initPending "swipe") ([] ++ Ev.reject :: [Ev.invoke])).warnings
         = [loaderFailedWarning (jsToLowerCase "swipe")]
     ∧ invokeDereg (run (initPending "swipe") ([] ++ Ev.reject :: [Ev.invoke]))
         = run (initPending "swipe") ([] ++ Ev.reject :: [Ev.invoke]))
    ∧ ((run (initPending "swipe") ([] ++ Ev.resolveNoHammer :: [Ev.invoke])).onCalls = []
     ∧ (run (initPending "swipe") ([] ++ Ev.resolveNoHammer :: [Ev.invoke])).offCalls = []
     ∧ (run (initPending "swipe") ([] ++ Ev.resolveNoHammer :: [Ev.invoke])).builds = 0
     ∧ (run (initPending "swipe") ([] ++ Ev.resolveNoHammer :: [Ev.invoke])).warnings
         = [noHammerWarning]
     ∧ invokeDereg (run (initPending "swipe") ([] ++ Ev.resolveNoHammer :: [Ev.invoke]))
         = run (initPending "swipe") ([] ++ Ev.resolveNoHammer :: [Ev.invoke])) :=
  C7_loader_failure_permanent_noop "swipe" [] [Ev.invoke] (by decide)

/-- Claim C8: whenever a call (pending or direct) is in the bound state,
exactly one wrapped callback was created for it, the engine's `on` was
called exactly once and exactly with that callback under the bound name,
and invoking the deregistration handle calls the engine's `off` with that
same callback reference under that same name. -/
theorem C8_off_uses_same_callback (name : String) (evs : List Ev)
    (s : CallState) (n : String) (c : Nat)
    (hs : s = run (initPending name) evs ∨ s = run (initBound name) evs)
    (hd : s.deregister = DeregAction.remove n c) :
    s.onCalls = [(n, c)] ∧ s.nextCb = 1 ∧ s.builds = 1
    ∧ (invokeDereg s).offCalls = s.offCalls ++ [(n, c)] := by
  have hbo : BoundOnce s := by
    rcases hs with hs | hs <;> rw [hs]
    · exact boundOnce_run _ evs (boundOnce_initPending name)
    · exact boundOnce_run _ evs (boundOnce_initBound name)
  obtain ⟨hon, hcb, hb, _⟩ := hbo.1 n c hd
  refine ⟨hon, hcb, hb, ?_⟩
  simp only [invokeDereg, hd]

/-- Witness for C8 at a concrete bound call whose handle is then
invoked. -/
theorem C8_witness :
    (run (initBound "tap") [Ev.invoke]).deregister = DeregAction.remove "tap" 0
    ∧ ((run (initBound "tap") [Ev.invoke]).onCalls = [("tap", 0)]
       ∧ (run (initBound "tap") [Ev.invoke]).nextCb = 1
       ∧ (run (initBound "tap") [Ev.invoke]).builds = 1
       ∧ (invokeDereg (run (initBound "tap") [Ev.invoke])).offCalls
           = (run (initBound "tap") [Ev.invoke]).offCalls ++ [("tap", 0)]) :=
  ⟨by decide,
   C8_off_uses_same_callback "tap" [Ev.invoke] (run (initBound "tap") [Ev.invoke])
     "tap" 0 (Or.inr rfl) (by decide)⟩

/-- Claim C9: once bound, each event emitted by the engine to the wrapped
callback invokes the caller's handler exactly once, with the engine's
event object passed through unmodified as the sole argument, and the
invocation happens inside the guarded execution context. -/
theorem C9_dispatch_guarded_once {α : Type} (h : Nat) (events : List α) :
    dispatchEvents h events
      = events.map (fun e => { handler := h, event := e, guarded := true }) := by
  simp only [dispatchEvents]
  induction events with
  | nil => rfl
  | cons e es ih =>
    simp [List.flatMap_cons, ih, wrappedCallback, zoneRunGuarded, invokeHandler]

/-- Claim C10: the event name is lowercased on entry to `addEventListener`,
before any binding path, so every name passed to the engine's `on` and
`off` is the lowercase form of the caller's argument — including for a
name recognized only through the case-sensitively matched custom event
list, where the bound name then differs from the name `supports`
matched. -/
theorem C10_names_lowercased (name : String) (evs : List Ev) :
    (∀ p ∈ (run (initPending name) evs).onCalls, Prod.fst p = jsToLowerCase name)
    ∧ (∀ p ∈ (run (initPending name) evs).offCalls, Prod.fst p = jsToLowerCase name)
    ∧ (∀ p ∈ (run (initBound name) evs).onCalls, Prod.fst p = jsToLowerCase name)
    ∧ (∀ p ∈ (run (initBound name) evs).offCalls, Prod.fst p = jsToLowerCase name)
    ∧ ((supports { events := ["MyGesture"] } true false "MyGesture").fst = true
       ∧ (initBound "MyGesture").onCalls = [("mygesture", 0)]
       ∧ jsToLowerCase "MyGesture" ≠ "MyGesture") := by
  have hp := namesAre_run (initPending name) evs (jsToLowerCase name)
    (jsToLowerCase_idem name) (namesAre_initPending name)
  have hb := namesAre_run (initBound name) evs (jsToLowerCase name)
    (jsToLowerCase_idem name) (namesAre_initBound name)
  exact ⟨hp.2.1, hp.2.2.1, hb.2.1, hb.2.2.1, ⟨by decide, by decide, by decide⟩⟩

/-- Witness for C10: the custom event name MyGesture is bound as
mygesture. -/
theorem C10_witness :
    Prod.fst (("mygesture", 0) : String × Nat) = jsToLowerCase "MyGesture" :=
  (C10_names_lowercased "MyGesture" [Ev.invoke]).2.2.1 ("mygesture", 0) (by decide)
